import Mathlib

/-!
Verification development for the disnake-ext-invitetracker repository.

The invite-usage reconciliation core is embedded shallowly:

* Python `dict` objects (`dict[str, Invite]` guild maps and the outer
  `dict[int, dict[str, Invite]]` cache of `InviteCache` in
  `util/cache.py`) are modelled as association lists with unique-key
  semantics (`dictGet` / `dictSet` / `dictRemove`).  The source never
  iterates over these dicts, so only keyed lookup behaviour matters.
* `disnake.Invite` is reduced to the fields the tracker reads:
  `code`, `uses`, `inviter` (the inviter's id when resolvable) and the
  id of the guild it belongs to (`invite.guild.id`).
* The durable store (tortoise ORM tables `guild` and `user_invited` in
  `database/models/tracker.py`) is modelled as plain row lists inside a
  `Database` state record; `filter(...).delete()` becomes row filtering.
* `await`-points that fetch from the host platform (`guild.invites()`)
  become explicit parameters holding the fetched value; a fetch that
  failed with `HTTPException`/`Forbidden` is the `none` value, matching
  `Database.get_guild_invites` returning `None`.
* A Python statement that raises an uncaught exception
  (`AttributeError` from `None.get`, `KeyError` from `del d[k]`) is an
  `Except.error` carrying the state at the moment of the raise.
-/

set_option autoImplicit false

namespace InviteTracker

universe u v

/-- Keyed lookup of a Python dict modelled as an association list:
first entry with the key wins (keys are unique in any state built by
the operations below, mirroring real dicts). -/
def dictGet {κ : Type u} {α : Type v} [DecidableEq κ] : List (κ × α) → κ → Option α
  | [], _ => none
  | (k', v) :: rest, k => if k' = k then some v else dictGet rest k

/-- Removal of a key from a Python dict (`del d[k]` / key overwrite):
drops every entry with that key. -/
def dictRemove {κ : Type u} {α : Type v} [DecidableEq κ] : List (κ × α) → κ → List (κ × α)
  | [], _ => []
  | (k', v) :: rest, k =>
      if k' = k then dictRemove rest k else (k', v) :: dictRemove rest k

/-- Assignment `d[k] = v` on a Python dict: the key now maps to `v`
and every other key is untouched. -/
def dictSet {κ : Type u} {α : Type v} [DecidableEq κ] (m : List (κ × α)) (k : κ) (v : α) :
    List (κ × α) :=
  (k, v) :: dictRemove m k

/-- The fields of a `disnake.Invite` that the tracker reads: the code,
the use count, the inviter id when the inviter is resolvable
(`invite.inviter.id if invite.inviter else None`), and the id of the
guild the invite belongs to (`invite.guild.id`). -/
structure Invite where
  code : String
  uses : Nat
  inviter : Option Nat
  guildId : Nat
deriving DecidableEq, Repr

/-- State of `util/cache.py` class `InviteCache`: the process-wide
`_cache : dict[int, dict[str, Invite]]`. -/
structure InviteCache where
  cache : List (Nat × List (String × Invite))
deriving DecidableEq, Repr

/-- `InviteCache.get` (cache.py lines 158-175): `self._cache.get(guild_id)`,
`None` when the guild has no entry.  The debug logging has no effect on
state or result and is omitted. -/
def InviteCache.get (self : InviteCache) (guild_id : Nat) :
    Option (List (String × Invite)) :=
  dictGet self.cache guild_id

/-- `InviteCache.update` (cache.py lines 177-202), branch where `invites`
is a full mapping: `self._cache[guild_id] = invites`, a wholesale
replacement of the guild's invite set. -/
def InviteCache.updateMapping (self : InviteCache) (guild_id : Nat)
    (invites : List (String × Invite)) : InviteCache :=
  ⟨dictSet self.cache guild_id invites⟩

/-- `InviteCache.update` (cache.py lines 177-202), branch where `invites`
is a single `Invite`: `old_invites = self._cache.get(guild_id, {})`,
`old_invites[invites.code] = invites`, and the result is stored back as
the guild's mapping. -/
def InviteCache.updateSingle (self : InviteCache) (guild_id : Nat) (invite : Invite) :
    InviteCache :=
  let old_invites := (dictGet self.cache guild_id).getD []
  ⟨dictSet self.cache guild_id (dictSet old_invites invite.code invite)⟩

/-- `InviteCache.delete_invite` (cache.py lines 204-230): when both the
guild and the code are present, delete the entry and return the old
invite; otherwise return `None` and leave the cache untouched. -/
def InviteCache.delete_invite (self : InviteCache) (guild_id : Nat)
    (invite_code : String) : Option Invite × InviteCache :=
  match dictGet self.cache guild_id with
  | none => (none, self)
  | some m =>
      match dictGet m invite_code with
      | none => (none, self)
      | some old_value =>
          (some old_value, ⟨dictSet self.cache guild_id (dictRemove m invite_code)⟩)

/-- `InviteCache.add_invite` (cache.py lines 232-251): create the guild
sub-map when absent, then `self._cache[guild_id][invite.code] = invite`. -/
def InviteCache.add_invite (self : InviteCache) (guild_id : Nat) (invite : Invite) :
    InviteCache :=
  match dictGet self.cache guild_id with
  | none => ⟨dictSet self.cache guild_id (dictSet [] invite.code invite)⟩
  | some m => ⟨dictSet self.cache guild_id (dictSet m invite.code invite)⟩

/-- The dict comprehension `{invite.code: invite for invite in await guild.invites()}`
in `InviteCache.update_invites_cache` (cache.py lines 253-268): built
left to right, a later duplicate code overwrites an earlier one. -/
def buildInviteDict (live : List Invite) : List (String × Invite) :=
  live.foldl (fun m i => dictSet m i.code i) []

/-- Body of the per-guild loop of `InviteCache.update_invites_cache`
(cache.py lines 253-268), the full-resync path: build the
code-to-invite dict from the live list and store it with `update`,
i.e. a wholesale replacement of the guild's cached invite set. -/
def InviteCache.update_invites_cache_one (self : InviteCache) (guild_id : Nat)
    (live : List Invite) : InviteCache :=
  self.updateMapping guild_id (buildInviteDict live)

/-- Specification device for `buildInviteDict`: the last live invite
carrying a given code, mirroring dict-comprehension overwrite order. -/
def lastFind : List Invite → String → Option Invite
  | [], _ => none
  | L :: rest, c =>
      match lastFind rest c with
      | some i => some i
      | none => if L.code = c then some L else none

/-- One row of the `user_invited` table (`UserInvitedModel` in
`database/models/tracker.py`): member id, guild id, invite code used,
join timestamp, nullable inviter id. -/
structure UserInvitedRow where
  id : Nat
  guild_id : Nat
  invite_code : String
  joined_at : Nat
  inviter_id : Option Nat
deriving DecidableEq, Repr

/-- State of `util/database.py` class `Database`: its `InviteCache`
instance plus the durable tables the claims touch, modelled as row
lists (the `guild` table as the list of guild ids, `user_invited` as a
`UserInvitedRow` list). -/
structure Database where
  invite_cache : InviteCache
  guilds_db : List Nat
  user_invited_db : List UserInvitedRow
deriving DecidableEq, Repr

/-- `UserInvitedModel.filter(invite_code=code).delete()`: keep exactly
the rows whose invite code differs from `code`. -/
def deleteRowsWithCode : List UserInvitedRow → String → List UserInvitedRow
  | [], _ => []
  | r :: rest, code =>
      if r.invite_code = code then deleteRowsWithCode rest code
      else r :: deleteRowsWithCode rest code

/-- `GuildModel.filter(id=guild_id).delete()`: keep exactly the guild
rows whose id differs from `guild_id`. -/
def deleteGuildRows : List Nat → Nat → List Nat
  | [], _ => []
  | g :: rest, guild_id =>
      if g = guild_id then deleteGuildRows rest guild_id
      else g :: deleteGuildRows rest guild_id

/-- Loop condition of `Database._get_invite_for_member` (database.py
lines 27-32) for one live invite: there is a cached snapshot for its
code and the live use count strictly exceeds the cached one.  The
Python truthiness test `if old_invite and ...` reduces to presence,
since a disnake `Invite` object is always truthy. -/
def increased (old_invites : List (String × Invite)) (invite : Invite) : Bool :=
  match dictGet old_invites invite.code with
  | some old_invite => decide (old_invite.uses < invite.uses)
  | none => false

/-- The `for invite in current_invites` scan of
`Database._get_invite_for_member` (database.py lines 27-32): return the
first live invite whose use count increased over the cache, or `none`
when the loop falls through.  The cache write (`add_invite`) happens
after the decision and immediately precedes the `return`, so the scan
itself is pure. -/
def resolveScan (old_invites : List (String × Invite)) : List Invite → Option Invite
  | [] => none
  | invite :: rest =>
      if increased old_invites invite then some invite
      else resolveScan old_invites rest

/-- `Database._get_invite_for_member` (database.py lines 21-35).  The
awaited live list `member.guild.invites()` is the `current_invites`
parameter.  `old_invites = self.invite_cache.get(member.guild.id)` is
`None` when the guild is absent, and the loop body then evaluates
`None.get(invite.code)`, raising `AttributeError` at the first live
invite: that raise is the `Except.error` branch, carrying the state at
the raise (nothing was mutated yet).  On a match the matching invite is
written back with `self.invite_cache.add_invite` and returned. -/
def Database.getInviteForMember (self : Database) (guild_id : Nat)
    (current_invites : List Invite) : Except Database (Option Invite × Database) :=
  match self.invite_cache.get guild_id with
  | none =>
      if current_invites.isEmpty then .ok (none, self) else .error self
  | some old_invites =>
      match resolveScan old_invites current_invites with
      | some invite =>
          .ok (some invite,
               { self with invite_cache := self.invite_cache.add_invite guild_id invite })
      | none => .ok (none, self)

/-- `Database.delete_invite` (database.py lines 165-177), the
`on_invite_delete` handler: drop the code from the cache, then
`await UserInvitedModel.filter(invite_code=invite.code).delete()`,
which deletes every recorded attribution row carrying this code.  The
`guild_invite` table is not touched. -/
def Database.delete_invite (self : Database) (invite : Invite) : Database :=
  let cache1 := (self.invite_cache.delete_invite invite.guildId invite.code).2
  { self with
      invite_cache := cache1,
      user_invited_db := deleteRowsWithCode self.user_invited_db invite.code }

/-- `Database.remove_guild_invites` (database.py lines 118-137), the
`on_guild_remove` handler.  `fetched` is the result of
`self.get_guild_invites(guild)`: `none` when the live fetch raised
`HTTPException`/`Forbidden` (database.py lines 70-92 return `None`), a
list otherwise.  The walrus guard `if not (invites := ...): return`
makes both `None` and the empty list an early return.  Otherwise every
fetched code is deleted from the cache, then
`del self.invite_cache.cache[guild.id]` runs, an unguarded dict
deletion that raises `KeyError` when the guild key is absent
(`Except.error` with the state at the raise), and finally the durable
guild row is deleted. -/
def Database.remove_guild_invites (self : Database) (guild_id : Nat)
    (fetched : Option (List Invite)) : Except Database Database :=
  match fetched with
  | none => .ok self
  | some invites =>
      if invites.isEmpty then .ok self
      else
        let cache1 := invites.foldl
          (fun c i => (InviteCache.delete_invite c guild_id i.code).2) self.invite_cache
        match dictGet cache1.cache guild_id with
        | none => .error { self with invite_cache := cache1 }
        | some _ =>
            .ok { self with
                    invite_cache := ⟨dictRemove cache1.cache guild_id⟩,
                    guilds_db := deleteGuildRows self.guilds_db guild_id }

/-- `Database.add_member` (database.py lines 195-219), the member-join
handler: resolve the used invite via `_get_invite_for_member`; when no
invite matched, record nothing; when one matched, create exactly one
`UserInvitedModel` row with the member id, guild id, matched code, join
timestamp, and the inviter id when resolvable (`None` otherwise).  Row
creation is modelled as appending to the table. -/
def Database.add_member (self : Database) (member_id guild_id joined_at : Nat)
    (current_invites : List Invite) : Except Database Database :=
  match self.getInviteForMember guild_id current_invites with
  | .error st => .error st
  | .ok (none, st) => .ok st
  | .ok (some invite, st) =>
      .ok { st with
              user_invited_db := st.user_invited_db ++
                [⟨member_id, guild_id, invite.code, joined_at, invite.inviter⟩] }

/-! Concrete states used for witnesses and counterexamples. -/

def codeA : String := "A"

def codeB : String := "B"

def codeZ : String := "Z"

def codeAbc : String := "abc"

def codeLowA : String := "a"

def codeX : String := "x"

def codeY : String := "y"

def codeOld : String := "old"

def invC1cached : Invite := ⟨codeAbc, 3, some 7, 42⟩

def invC1 : Invite := ⟨codeAbc, 3, some 7, 42⟩

def rowC1 : UserInvitedRow := ⟨99, 42, codeAbc, 1000, some 7⟩

def stC1 : Database := ⟨⟨[(42, [(codeAbc, invC1cached)])]⟩, [42], [rowC1]⟩

def stC2 : Database := ⟨⟨[]⟩, [], []⟩

def invC2 : Invite := ⟨codeA, 1, none, 1⟩

def invC3 : Invite := ⟨codeA, 5, none, 5⟩

def stC3 : Database := ⟨⟨[(5, [(codeA, invC3)])]⟩, [5], []⟩

def invC4 : Invite := ⟨codeLowA, 1, none, 1⟩

def stC4 : Database := ⟨⟨[(1, [(codeLowA, invC4)])]⟩, [1], []⟩

def stC4dropped : Database := ⟨⟨[]⟩, [], []⟩

def invA5 : Invite := ⟨codeA, 5, none, 7⟩

def invB5 : Invite := ⟨codeB, 5, none, 7⟩

def invB6 : Invite := ⟨codeB, 6, none, 7⟩

def invA6 : Invite := ⟨codeA, 6, none, 7⟩

def mapC5 : List (String × Invite) := [(codeA, invA5), (codeB, invB5)]

def stC5 : Database := ⟨⟨[(7, mapC5)]⟩, [], []⟩

def stC5a : Database := ⟨⟨[(7, [(codeB, invB6), (codeA, invA5)])]⟩, [], []⟩

def invOld : Invite := ⟨codeOld, 2, none, 9⟩

def cacheC6 : InviteCache := ⟨[(9, [(codeOld, invOld)])]⟩

def invC7 : Invite := ⟨codeA, 5, none, 3⟩

def stC7 : Database := ⟨⟨[(3, [(codeA, invC7)])]⟩, [], []⟩

def invC8cached : Invite := ⟨codeAbc, 3, some 7, 42⟩

def invC8live : Invite := ⟨codeAbc, 4, some 7, 42⟩

def stC8 : Database := ⟨⟨[(42, [(codeAbc, invC8cached)])]⟩, [42], []⟩

def stC8m : Database := ⟨⟨[(42, [(codeAbc, invC8live)])]⟩, [42], []⟩

def invX1 : Invite := ⟨codeX, 1, none, 1⟩

def invY1 : Invite := ⟨codeY, 1, none, 1⟩

def invX2 : Invite := ⟨codeX, 2, none, 1⟩

def cacheC10 : InviteCache := ⟨[(1, [(codeX, invX1), (codeY, invY1)])]⟩

/-! Library lemmas about the dict model and the embedded operations. -/

@[simp]
theorem dictGet_nil {κ : Type u} {α : Type v} [DecidableEq κ] (k : κ) :
    dictGet ([] : List (κ × α)) k = none := rfl

theorem dictGet_dictRemove_self {κ : Type u} {α : Type v} [DecidableEq κ]
    (m : List (κ × α)) (k : κ) : dictGet (dictRemove m k) k = none := by
  induction m with
  | nil => rfl
  | cons p rest ih =>
    obtain ⟨k', v⟩ := p
    by_cases h : k' = k
    · simpa [dictRemove, h] using ih
    · simpa [dictRemove, dictGet, h] using ih

theorem dictGet_dictRemove_ne {κ : Type u} {α : Type v} [DecidableEq κ]
    (m : List (κ × α)) (k k' : κ) (h : k' ≠ k) :
    dictGet (dictRemove m k) k' = dictGet m k' := by
  induction m with
  | nil => rfl
  | cons p rest ih =>
    obtain ⟨a, b⟩ := p
    by_cases hak : a = k
    · subst hak
      have hk' : ¬ a = k' := fun hc => h (hc ▸ rfl)
      simpa [dictRemove, dictGet, hk'] using ih
    · by_cases hak' : a = k'
      · subst hak'
        simp [dictRemove, dictGet, hak]
      · simpa [dictRemove, dictGet, hak, hak'] using ih

theorem dictGet_dictSet {κ : Type u} {α : Type v} [DecidableEq κ]
    (m : List (κ × α)) (k k' : κ) (v : α) :
    dictGet (dictSet m k v) k' = if k = k' then some v else dictGet m k' := by
  by_cases h : k = k'
  · simp [dictSet, dictGet, h]
  · have h' : k' ≠ k := fun hc => h (hc ▸ rfl)
    simp [dictSet, dictGet, h, dictGet_dictRemove_ne m k k' h']

@[simp]
theorem dictGet_dictSet_self {κ : Type u} {α : Type v} [DecidableEq κ]
    (m : List (κ × α)) (k : κ) (v : α) :
    dictGet (dictSet m k v) k = some v := by
  simp [dictGet_dictSet]

theorem dictGet_dictSet_ne {κ : Type u} {α : Type v} [DecidableEq κ]
    (m : List (κ × α)) (k k' : κ) (v : α) (h : k ≠ k') :
    dictGet (dictSet m k v) k' = dictGet m k' := by
  simp [dictGet_dictSet, h]

theorem resolveScan_eq_find (m : List (String × Invite)) (live : List Invite) :
    resolveScan m live = live.find? (increased m) := by
  induction live with
  | nil => rfl
  | cons L rest ih =>
    cases h : increased m L with
    | true => simp [resolveScan, List.find?, h]
    | false => simp [resolveScan, List.find?, h, ih]

theorem increased_of_resolveScan (m : List (String × Invite)) (live : List Invite)
    (inv : Invite) (h : resolveScan m live = some inv) : increased m inv = true := by
  induction live with
  | nil => simp [resolveScan] at h
  | cons L rest ih =>
    simp only [resolveScan] at h
    by_cases hL : increased m L = true
    · rw [if_pos hL] at h
      injection h with h
      subst h
      exact hL
    · rw [if_neg hL] at h
      exact ih h

theorem resolveScan_eq_none_of_equal (m : List (String × Invite)) (live : List Invite)
    (h : ∀ L ∈ live, ∃ C, dictGet m L.code = some C ∧ L.uses = C.uses) :
    resolveScan m live = none := by
  induction live with
  | nil => rfl
  | cons L rest ih =>
    obtain ⟨C, hC, hEq⟩ := h L (List.mem_cons_self L rest)
    have hinc : increased m L = false := by
      simp [increased, hC, hEq]
    simp only [resolveScan, hinc]
    simpa using ih (fun L' hL' => h L' (List.mem_cons_of_mem _ hL'))

theorem getInviteForMember_frame (st : Database) (g : Nat) (live : List Invite)
    (r : Option Invite) (st' : Database)
    (h : Database.getInviteForMember st g live = .ok (r, st')) :
    st'.user_invited_db = st.user_invited_db ∧ st'.guilds_db = st.guilds_db := by
  unfold Database.getInviteForMember at h
  cases hg : st.invite_cache.get g with
  | none =>
    simp only [hg] at h
    by_cases he : live.isEmpty
    · rw [if_pos he] at h
      cases h
      exact ⟨rfl, rfl⟩
    · rw [if_neg he] at h
      cases h
  | some m =>
    simp only [hg] at h
    cases hs : resolveScan m live with
    | some inv =>
      simp only [hs] at h
      cases h
      exact ⟨rfl, rfl⟩
    | none =>
      simp only [hs] at h
      cases h
      exact ⟨rfl, rfl⟩

theorem dictGet_foldl_dictSet (live : List Invite) (m0 : List (String × Invite))
    (c : String) :
    dictGet (live.foldl (fun m i => dictSet m i.code i) m0) c =
      (match lastFind live c with
       | some i => some i
       | none => dictGet m0 c) := by
  induction live generalizing m0 with
  | nil => rfl
  | cons L rest ih =>
    rw [List.foldl_cons, ih]
    cases hr : lastFind rest c with
    | some i => simp [lastFind, hr]
    | none =>
      by_cases hc : L.code = c
      · subst hc
        simp [lastFind, hr]
      · simp [lastFind, hr, hc, dictGet_dictSet_ne _ _ _ _ hc]

theorem dictGet_buildInviteDict (live : List Invite) (c : String) :
    dictGet (buildInviteDict live) c = lastFind live c := by
  unfold buildInviteDict
  rw [dictGet_foldl_dictSet]
  cases lastFind live c <;> rfl

theorem lastFind_eq_none (live : List Invite) (c : String)
    (h : ∀ i ∈ live, i.code ≠ c) : lastFind live c = none := by
  induction live with
  | nil => rfl
  | cons L rest ih =>
    have hr := ih (fun i hi => h i (List.mem_cons_of_mem _ hi))
    simp [lastFind, hr, h L (List.mem_cons_self L rest)]

theorem delete_invite_guild_key (c : InviteCache) (g : Nat) (code : String) :
    (dictGet (c.delete_invite g code).2.cache g).isSome = (dictGet c.cache g).isSome := by
  unfold InviteCache.delete_invite
  cases h : dictGet c.cache g with
  | none => simp [h]
  | some m =>
    cases hm : dictGet m code with
    | none => simp [h, hm]
    | some old => simp [h, hm]

theorem foldl_delete_invite_guild_key (invites : List Invite) (c : InviteCache) (g : Nat) :
    (dictGet (invites.foldl
        (fun c i => (InviteCache.delete_invite c g i.code).2) c).cache g).isSome
      = (dictGet c.cache g).isSome := by
  induction invites generalizing c with
  | nil => rfl
  | cons i rest ih => rw [List.foldl_cons, ih, delete_invite_guild_key]

theorem delete_invite_code_none (c : InviteCache) (g : Nat) (code : String) :
    dictGet (((c.delete_invite g code).2.get g).getD []) code = none := by
  unfold InviteCache.delete_invite InviteCache.get
  cases h : dictGet c.cache g with
  | none => simp [h]
  | some m =>
    cases hm : dictGet m code with
    | none => simp [h, hm]
    | some old => simp [h, hm, dictGet_dictSet_self, dictGet_dictRemove_self]

theorem mem_deleteRowsWithCode (rows : List UserInvitedRow) (code : String)
    (r : UserInvitedRow) :
    r ∈ deleteRowsWithCode rows code ↔ (r ∈ rows ∧ r.invite_code ≠ code) := by
  induction rows with
  | nil => simp [deleteRowsWithCode]
  | cons x rest ih =>
    by_cases h : x.invite_code = code
    · rw [deleteRowsWithCode, if_pos h, ih]
      constructor
      · rintro ⟨hr, hne⟩
        exact ⟨List.mem_cons_of_mem _ hr, hne⟩
      · rintro ⟨hor, hne⟩
        cases List.mem_cons.mp hor with
        | inl he => exact absurd (he ▸ h) hne
        | inr hr => exact ⟨hr, hne⟩
    · rw [deleteRowsWithCode, if_neg h]
      constructor
      · intro hmem
        cases List.mem_cons.mp hmem with
        | inl he => exact ⟨he ▸ List.mem_cons_self x rest, he ▸ h⟩
        | inr hr =>
          obtain ⟨h1, h2⟩ := ih.mp hr
          exact ⟨List.mem_cons_of_mem _ h1, h2⟩
      · rintro ⟨hor, hne⟩
        cases List.mem_cons.mp hor with
        | inl he => exact he ▸ List.mem_cons_self x _
        | inr hr => exact List.mem_cons_of_mem _ (ih.mpr ⟨hr, hne⟩)

theorem not_mem_deleteGuildRows (rows : List Nat) (g : Nat) :
    g ∉ deleteGuildRows rows g := by
  induction rows with
  | nil => simp [deleteGuildRows]
  | cons x rest ih =>
    by_cases h : x = g
    · rw [deleteGuildRows, if_pos h]
      exact ih
    · rw [deleteGuildRows, if_neg h]
      intro hmem
      cases List.mem_cons.mp hmem with
      | inl he => exact h he.symm
      | inr hr => exact ih hr

/-! Claim theorems. -/

/-- C1, counterexample: the claim as stated is false on the code.  In
the state where member 99's join was attributed to invite `abc` of
guild 42, the `on_invite_delete` handler for that invite does change
the recorded InvitedMember rows (it deletes the attribution row). -/
theorem delete_invite_attribution_cex :
    ¬ ((Database.delete_invite stC1 invC1).user_invited_db = stC1.user_invited_db) := by
  decide

/-- C1, amended: for every invite-delete event, the handler removes the
invite from the cache (the code no longer resolves in the guild's
sub-map) and leaves the durable guild rows alone, but its durable
effect is to delete exactly the already-recorded InvitedMember rows
that referenced this invite code: a row survives the deletion if and
only if it was recorded and carries a different code — historical
attribution does not survive invite deletion. -/
theorem delete_invite_effect :
    ∀ (st : Database) (inv : Invite) (r : UserInvitedRow),
      (r ∈ (Database.delete_invite st inv).user_invited_db ↔
        (r ∈ st.user_invited_db ∧ r.invite_code ≠ inv.code)) ∧
      dictGet (((Database.delete_invite st inv).invite_cache.get inv.guildId).getD [])
        inv.code = none ∧
      (Database.delete_invite st inv).guilds_db = st.guilds_db := by
  intro st inv r
  refine ⟨?_, ?_, rfl⟩
  · exact mem_deleteRowsWithCode st.user_invited_db inv.code r
  · exact delete_invite_code_none st.invite_cache inv.guildId inv.code

/-- C1, witness: instance of the amended theorem at a concrete state. -/
theorem delete_invite_effect_witness :
    (rowC1 ∈ (Database.delete_invite stC1 invC1).user_invited_db ↔
      (rowC1 ∈ stC1.user_invited_db ∧ rowC1.invite_code ≠ invC1.code)) ∧
    dictGet (((Database.delete_invite stC1 invC1).invite_cache.get invC1.guildId).getD [])
      invC1.code = none ∧
    (Database.delete_invite stC1 invC1).guilds_db = stC1.guilds_db :=
  delete_invite_effect stC1 invC1 rowC1

/-- C2: with guild 1 absent from the cache and live invites `[A: 1]`,
`_get_invite_for_member` does not return none: it evaluates
`None.get(...)` and raises `AttributeError` (the `Except.error`
branch).  Only the empty live list avoids the fault. -/
theorem uninitialized_guild_resolve_faults :
    Database.getInviteForMember stC2 1 [invC2] = .error stC2 ∧
    Database.getInviteForMember stC2 1 [] = .ok (none, stC2) :=
  ⟨rfl, rfl⟩

/-- C3, counterexample: the claim as stated is false on the code.  With
guild 5 cached and durably recorded, an `on_guild_remove` event whose
live invite fetch returns the empty list leaves the state completely
unchanged: the guild sub-map is still cached and the durable guild row
still exists. -/
theorem remove_guild_empty_fetch_cex :
    Database.remove_guild_invites stC3 5 (some []) = .ok stC3 ∧
    (stC3.invite_cache.get 5).isSome = true ∧
    5 ∈ stC3.guilds_db := by
  refine ⟨rfl, rfl, ?_⟩
  decide

/-- C3, amended: the `on_guild_remove` handler drops the guild sub-map
and deletes the durable guild rows only when the live invite fetch
succeeds with a non-empty list (and the guild key is cached); when the
fetch fails (`none`) or returns no invites, the handler returns with
the cache and the database untouched. -/
theorem remove_guild_effect :
    ∀ (st : Database) (g : Nat) (live : List Invite),
      Database.remove_guild_invites st g none = .ok st ∧
      Database.remove_guild_invites st g (some []) = .ok st ∧
      (live ≠ [] → (st.invite_cache.get g).isSome = true →
        ∃ st', Database.remove_guild_invites st g (some live) = .ok st' ∧
          st'.invite_cache.get g = none ∧
          g ∉ st'.guilds_db ∧
          st'.user_invited_db = st.user_invited_db) := by
  intro st g live
  refine ⟨rfl, rfl, ?_⟩
  intro hlive hsome
  have hne : live.isEmpty = false := by
    cases live with
    | nil => exact absurd rfl hlive
    | cons a as => rfl
  have hkey : (dictGet (live.foldl
      (fun c i => (InviteCache.delete_invite c g i.code).2) st.invite_cache).cache g).isSome
        = true := by
    rw [foldl_delete_invite_guild_key]
    exact hsome
  obtain ⟨m1, hm1⟩ := Option.isSome_iff_exists.mp hkey
  refine ⟨{ st with
      invite_cache := ⟨dictRemove (live.foldl
        (fun c i => (InviteCache.delete_invite c g i.code).2) st.invite_cache).cache g⟩,
      guilds_db := deleteGuildRows st.guilds_db g }, ?_, ?_, ?_, rfl⟩
  · simp only [Database.remove_guild_invites, hne, Bool.false_eq_true, if_false, hm1]
  · exact dictGet_dictRemove_self _ g
  · exact not_mem_deleteGuildRows st.guilds_db g

/-- C3, witness: instance of the amended theorem with guild 5 cached
and a non-empty live fetch, discharging both hypotheses. -/
theorem remove_guild_effect_witness :
    ∃ st', Database.remove_guild_invites stC3 5 (some [invC3]) = .ok st' ∧
      st'.invite_cache.get 5 = none ∧
      5 ∉ st'.guilds_db ∧
      st'.user_invited_db = stC3.user_invited_db :=
  (remove_guild_effect stC3 5 [invC3]).2.2 (by decide) (by decide)

/-- C4: removing an invite from an already-dropped guild is indeed a
benign no-op returning `None`, but dropping a guild twice faults: after
guild 1 has been removed once, a second `on_guild_remove` with the same
fetched invite list raises `KeyError` at
`del self.invite_cache.cache[guild.id]` instead of signalling "not
found", so the claim's never-faults guarantee fails. -/
theorem remove_guild_twice_faults :
    Database.remove_guild_invites stC4 1 (some [invC4]) = .ok stC4dropped ∧
    Database.remove_guild_invites stC4dropped 1 (some [invC4]) = .error stC4dropped ∧
    stC4dropped.invite_cache.delete_invite 1 codeLowA = (none, stC4dropped.invite_cache) :=
  ⟨rfl, rfl, rfl⟩

/-- C5: the reconciliation scan inspects the live list in order and
returns the first invite whose live use count strictly exceeds its
cached count (`resolveScan` is `List.find?` of the `increased` test);
on a match only that invite's cache entry is rewritten, every other
code and every other guild being untouched; and on the spec's concrete
examples — cache `{A:5, B:5}` with live `[A:5, B:6]`, then with live
`[B:6, A:6]` — the invite `B` is returned and the cache becomes
`{A:5, B:6}`. -/
theorem resolve_first_match :
    (∀ (m : List (String × Invite)) (live : List Invite),
        resolveScan m live = live.find? (increased m)) ∧
    (∀ (st : Database) (g : Nat) (m : List (String × Invite)) (live : List Invite)
        (inv : Invite) (st' : Database),
        st.invite_cache.get g = some m →
        Database.getInviteForMember st g live = .ok (some inv, st') →
        increased m inv = true ∧
        st'.invite_cache.get g = some (dictSet m inv.code inv) ∧
        (∀ code, code ≠ inv.code →
          dictGet ((st'.invite_cache.get g).getD []) code = dictGet m code) ∧
        (∀ g', g' ≠ g → st'.invite_cache.get g' = st.invite_cache.get g')) ∧
    (Database.getInviteForMember stC5 7 [invA5, invB6] = .ok (some invB6, stC5a)) ∧
    (Database.getInviteForMember stC5 7 [invB6, invA6] = .ok (some invB6, stC5a)) ∧
    dictGet ((stC5a.invite_cache.get 7).getD []) codeA = some invA5 ∧
    dictGet ((stC5a.invite_cache.get 7).getD []) codeB = some invB6 := by
  refine ⟨resolveScan_eq_find, ?_, rfl, rfl, rfl, rfl⟩
  intro st g m live inv st' hm h
  simp only [Database.getInviteForMember, hm] at h
  cases hs : resolveScan m live with
  | none => simp [hs] at h
  | some i =>
    simp only [hs, Except.ok.injEq, Prod.mk.injEq, Option.some.injEq] at h
    obtain ⟨hi, hst⟩ := h
    subst hst
    subst hi
    have hcc : dictGet st.invite_cache.cache g = some m := hm
    have hget : (InviteCache.add_invite st.invite_cache g i).get g
        = some (dictSet m i.code i) := by
      simp [InviteCache.add_invite, InviteCache.get, hcc]
    refine ⟨increased_of_resolveScan m live i hs, hget, ?_, ?_⟩
    · intro code hc
      show dictGet (((InviteCache.add_invite st.invite_cache g i).get g).getD []) code
          = dictGet m code
      rw [hget]
      exact dictGet_dictSet_ne _ _ _ _ (Ne.symm hc)
    · intro g' hg
      show (InviteCache.add_invite st.invite_cache g i).get g'
          = st.invite_cache.get g'
      simp only [InviteCache.add_invite, InviteCache.get, hcc]
      exact dictGet_dictSet_ne _ _ _ _ (Ne.symm hg)

/-- C5, witness: instance of the first-match theorem on the spec's
first example, with both hypotheses and the inner frame conditions
discharged at concrete inputs. -/
theorem resolve_first_match_witness :
    increased mapC5 invB6 = true ∧
    stC5a.invite_cache.get 7 = some (dictSet mapC5 invB6.code invB6) ∧
    dictGet ((stC5a.invite_cache.get 7).getD []) codeA = dictGet mapC5 codeA ∧
    stC5a.invite_cache.get 8 = stC5.invite_cache.get 8 := by
  have h := resolve_first_match.2.1 stC5 7 mapC5 [invA5, invB6] invB6 stC5a rfl rfl
  exact ⟨h.1, h.2.1, h.2.2.1 codeA (by decide), h.2.2.2 8 (by decide)⟩

/-- C6: after the full-resync path stores a guild's live invite list,
`get` on that guild returns exactly the dict built from the live list,
regardless of the prior cache content; every code maps to its last
live snapshot (hence its live use count), any code absent from the
live list resolves to nothing, and other guilds are untouched. -/
theorem resync_wholesale_replace :
    ∀ (c : InviteCache) (g : Nat) (live : List Invite),
      (c.update_invites_cache_one g live).get g = some (buildInviteDict live) ∧
      (∀ code, dictGet (buildInviteDict live) code = lastFind live code) ∧
      (∀ code, (∀ i ∈ live, i.code ≠ code) →
        dictGet (buildInviteDict live) code = none) ∧
      (∀ g', g' ≠ g → (c.update_invites_cache_one g live).get g' = c.get g') := by
  intro c g live
  refine ⟨?_, fun code => dictGet_buildInviteDict live code, ?_, ?_⟩
  · simp [InviteCache.update_invites_cache_one, InviteCache.updateMapping, InviteCache.get]
  · intro code h
    rw [dictGet_buildInviteDict, lastFind_eq_none live code h]
  · intro g' hg
    simp only [InviteCache.update_invites_cache_one, InviteCache.updateMapping,
      InviteCache.get]
    exact dictGet_dictSet_ne _ _ _ _ (Ne.symm hg)

/-- C6, witness: instance of the resync theorem at a concrete prior
cache holding an unrelated code, with the inner hypotheses discharged. -/
theorem resync_wholesale_replace_witness :
    (cacheC6.update_invites_cache_one 9 [invA5, invB6]).get 9
      = some (buildInviteDict [invA5, invB6]) ∧
    dictGet (buildInviteDict [invA5, invB6]) codeZ = none ∧
    (cacheC6.update_invites_cache_one 9 [invA5, invB6]).get 8 = cacheC6.get 8 := by
  have h := resync_wholesale_replace cacheC6 9 [invA5, invB6]
  exact ⟨h.1, h.2.2.1 codeZ (by decide), h.2.2.2 8 (by decide)⟩

/-- C7: when every live invite has a cached snapshot with exactly the
same use count, the reconciliation returns none and the whole state —
cache included — is returned unchanged. -/
theorem resolve_equal_counts_none :
    ∀ (st : Database) (g : Nat) (m : List (String × Invite)) (live : List Invite),
      st.invite_cache.get g = some m →
      (∀ L ∈ live, ∃ C, dictGet m L.code = some C ∧ L.uses = C.uses) →
      Database.getInviteForMember st g live = .ok (none, st) := by
  intro st g m live hm h
  simp only [Database.getInviteForMember, hm,
    resolveScan_eq_none_of_equal m live h]

/-- C7, witness: the spec's example, cache `{A:5}` and live `[A:5]`,
returns none with the state unchanged. -/
theorem resolve_equal_counts_none_witness :
    Database.getInviteForMember stC7 3 [invC7] = .ok (none, stC7) := by
  apply resolve_equal_counts_none stC7 3 [(codeA, invC7)] [invC7] rfl
  intro L hL
  have hLe : L = invC7 := by simpa using hL
  subst hLe
  exact ⟨invC7, rfl, rfl⟩

/-- C8: on a member-join event, when the reconciliation finds a
matching invite, exactly one InvitedMember row — member id, guild id,
matched code, join timestamp, and the inviter id when resolvable — is
appended to the previously recorded rows; when no invite matches,
the recorded rows are unchanged. -/
theorem add_member_records :
    ∀ (st : Database) (member_id g t : Nat) (live : List Invite),
      (∀ inv st', Database.getInviteForMember st g live = .ok (some inv, st') →
        Database.add_member st member_id g t live =
          .ok { st' with user_invited_db := st.user_invited_db ++
                  [⟨member_id, g, inv.code, t, inv.inviter⟩] }) ∧
      (∀ st', Database.getInviteForMember st g live = .ok (none, st') →
        Database.add_member st member_id g t live = .ok st' ∧
        st'.user_invited_db = st.user_invited_db) := by
  intro st member_id g t live
  constructor
  · intro inv st' h
    have hf := (getInviteForMember_frame st g live (some inv) st' h).1
    simp only [Database.add_member, h, hf]
  · intro st' h
    exact ⟨by simp only [Database.add_member, h],
           (getInviteForMember_frame st g live none st' h).1⟩

/-- C8, witness: the spec's end-to-end scenario — guild 42 cached with
`abc:3`, live `[abc:4]`, member 99 joins — records exactly the row
`(99, 42, abc, t, 7)`. -/
theorem add_member_records_witness :
    Database.add_member stC8 99 42 1000 [invC8live] =
      .ok { stC8m with user_invited_db := stC8.user_invited_db ++
              [⟨99, 42, invC8live.code, 1000, invC8live.inviter⟩] } :=
  (add_member_records stC8 99 42 1000 [invC8live]).1 invC8live stC8m rfl

/-- C9: upserting a single snapshot and reading the guild back yields a
present mapping whose entry for the snapshot's code is that snapshot,
the guild sub-map being created when absent. -/
theorem add_invite_round_trip :
    ∀ (c : InviteCache) (g : Nat) (inv : Invite),
      ((c.add_invite g inv).get g).isSome = true ∧
      dictGet (((c.add_invite g inv).get g).getD []) inv.code = some inv := by
  intro c g inv
  unfold InviteCache.add_invite InviteCache.get
  cases h : dictGet c.cache g <;> simp

/-- C10: the single-snapshot form of `InviteCache.update` merges the
snapshot into the guild's existing mapping — the snapshot's code now
resolves to it and every other cached code of the guild resolves as
before — while the full-mapping form replaces the guild's invite set
wholesale with the given mapping. -/
theorem update_single_merges :
    ∀ (c : InviteCache) (g : Nat) (inv : Invite),
      dictGet (((c.updateSingle g inv).get g).getD []) inv.code = some inv ∧
      (∀ code, code ≠ inv.code →
        dictGet (((c.updateSingle g inv).get g).getD []) code =
          dictGet ((c.get g).getD []) code) ∧
      (∀ mapping, (c.updateMapping g mapping).get g = some mapping) := by
  intro c g inv
  refine ⟨?_, ?_, ?_⟩
  · simp [InviteCache.updateSingle, InviteCache.get]
  · intro code hc
    simp only [InviteCache.updateSingle, InviteCache.get, dictGet_dictSet_self,
      Option.getD_some]
    exact dictGet_dictSet_ne _ _ _ _ (Ne.symm hc)
  · intro mapping
    simp [InviteCache.updateMapping, InviteCache.get]

/-- C10, witness: merging `x:2` into a guild caching `x:1` and `y:1`
rewrites `x` and preserves the cached entry for `y`. -/
theorem update_single_merges_witness :
    dictGet (((cacheC10.updateSingle 1 invX2).get 1).getD []) invX2.code = some invX2 ∧
    dictGet (((cacheC10.updateSingle 1 invX2).get 1).getD []) codeY =
      dictGet ((cacheC10.get 1).getD []) codeY :=
  ⟨(update_single_merges cacheC10 1 invX2).1,
   (update_single_merges cacheC10 1 invX2).2.1 codeY (by decide)⟩

end InviteTracker
